import Mathlib

/-!
Verification of the Kalshi dashboard aggregation pipeline
(`kalshi_client.py`, class `KalshiClient`).

The embedding models the core pipeline of `get_top_events_by_category`:
category classification, event-to-option aggregation, probability
derivation, optional price-delta enrichment, and ranking.  Network
effects are turned into explicit parameters: the fetched event list is
an argument, and the per-market candle lookup is a function argument
(`CandleLookup`), with `none` standing for a raised exception.

Numeric prices are carried as exact rationals (`ℚ`), and the IEEE-754
double arithmetic of the probability derivation is modelled exactly:
`roundToDouble` is correctly-rounded binary64 rounding (round to
nearest, ties to even, 53-bit significand), `pyInt` is Python's `int()`
truncation.  A JSON field that may be absent or null is an `Option`;
Python's stable `list.sort(key=..., reverse=True)` is
`List.insertionSort` with the "key greater-or-equal" relation `keyGe`,
which is a stable descending sort.
-/

/-- Lower-case an ASCII character, as Python's `str.lower` does on the
ASCII range (all category names and keywords in the source are ASCII). -/
def lowerChar (c : Char) : Char :=
  if 'A' ≤ c ∧ c ≤ 'Z' then Char.ofNat (c.toNat + 32) else c

/-- Model of Python's `str.lower()`. -/
def lowerString (s : String) : String :=
  String.mk (s.data.map lowerChar)

/-- Contiguous-sublist test on character lists; model of Python's
substring operator `needle in haystack`. -/
def isInfixOf : List Char → List Char → Bool
  | needle, [] => needle.isEmpty
  | needle, l@(_ :: t) => needle.isPrefixOf l || isInfixOf needle t

/-- Python's `needle in haystack` on strings. -/
def substrOf (needle haystack : String) : Bool :=
  isInfixOf needle.data haystack.data

/-- Raw market record as fetched from the API, restricted to the fields
the pipeline reads (`kalshi_client.py` lines 712-730).  An outer `none`
models an absent JSON key; for `yes_bid_dollars`, `some none` models a
present value that `float()` cannot parse (including `null`). -/
structure RawMarket where
  ticker : String
  status : Option String
  yes_bid_dollars : Option (Option ℚ)
  yes_sub_title : Option String
  volume_24h : Option ℕ
deriving DecidableEq

/-- Raw event record with nested markets (`event.get(...)` fields read at
lines 671-706).  String fields read with `event.get(key, "")`, so an
absent key is modelled as `""`. -/
structure RawEvent where
  event_ticker : String
  title : String
  category : String
  series_ticker : String
  markets : List RawMarket
deriving DecidableEq

/-- The `MarketOption` dataclass (`kalshi_client.py` lines 39-54). -/
structure MarketOption where
  name : String
  probability : ℤ
  volume_24h : ℕ
  ticker : String
  price_change_24h : ℤ
  series_ticker : String
deriving DecidableEq

/-- The `EventData` dataclass (`kalshi_client.py` lines 57-72). -/
structure EventData where
  event_ticker : String
  title : String
  category : String
  options : List MarketOption
  total_volume : ℕ
  num_markets : ℕ
  max_price_change : ℤ
  series_ticker : String
deriving DecidableEq

/-- The `CRYPTO_KEYWORDS` constant (`kalshi_client.py` lines 646-653). -/
def CRYPTO_KEYWORDS : List String :=
  ["bitcoin", "btc", "ethereum", "eth", "crypto", "cryptocurrency",
   "solana", "sol", "dogecoin", "doge", "xrp", "ripple", "cardano",
   "ada", "polkadot", "dot", "avalanche", "avax", "chainlink", "link",
   "polygon", "matic", "litecoin", "ltc", "uniswap", "uni", "shiba",
   "pepe", "memecoin", "altcoin", "defi", "nft", "web3", "binance",
   "coinbase", "stablecoin", "usdt", "usdc"]

/-- The `CATEGORY_MAPPING` dictionary lookup with its fallback
`CATEGORY_MAPPING.get(category_lower, [category_lower])`
(`kalshi_client.py` lines 625-642 and 666). -/
def categoryMapping (category_lower : String) : List String :=
  if category_lower = "economics" then ["financials", "economics"]
  else if category_lower = "crypto" then ["financials"]
  else if category_lower = "politics" then ["politics", "elections"]
  else if category_lower = "elections" then ["elections"]
  else if category_lower = "financials" then ["financials"]
  else if category_lower = "sports" then ["sports"]
  else if category_lower = "entertainment" then ["entertainment"]
  else if category_lower = "climate" then ["climate and weather"]
  else if category_lower = "weather" then ["climate and weather"]
  else if category_lower = "health" then ["health"]
  else if category_lower = "science" then ["science and technology"]
  else if category_lower = "technology" then ["science and technology"]
  else if category_lower = "world" then ["world"]
  else if category_lower = "companies" then ["companies"]
  else if category_lower = "social" then ["social"]
  else if category_lower = "transportation" then ["transportation"]
  else [category_lower]

/-- The crypto keyword test `any(keyword in event_title for keyword in
CRYPTO_KEYWORDS)` (lines 683-684 and 690); its argument is the already
lower-cased event title. -/
def hasCryptoKeyword (event_title : String) : Bool :=
  CRYPTO_KEYWORDS.any fun keyword => substrOf keyword event_title

/-- The bidirectional partial category match (lines 676-679):
`any(target.lower() in event_category or event_category in target.lower()
for target in target_categories)`; `event_category` is already
lower-cased. -/
def baseCategoryMatch (category_lower event_category : String) : Bool :=
  (categoryMapping category_lower).any fun target =>
    substrOf (lowerString target) event_category ||
      substrOf event_category (lowerString target)

/-- The per-event classification decision (lines 671-693): base category
match, with the crypto keyword refinement for `"crypto"` and the crypto
exclusion for `"economics"`. -/
def eventMatches (category_lower : String) (ev : RawEvent) : Bool :=
  let event_category := lowerString ev.category
  let event_title := lowerString ev.title
  let category_matches := baseCategoryMatch category_lower event_category
  if category_lower = "crypto" then
    category_matches && hasCryptoKeyword event_title
  else if category_lower = "economics" then
    category_matches && !hasCryptoKeyword event_title
  else
    category_matches

/-- Python's `int()` truncation toward zero, on exact rationals. -/
def pyInt (q : ℚ) : ℤ :=
  if 0 ≤ q.num then q.num / q.den else -((-q.num) / q.den)

/-- Round a rational to the nearest integer with ties to even — the
IEEE-754 `roundTiesToEven` rounding of a scaled significand. -/
def roundHalfEven (x : ℚ) : ℤ :=
  if x - ⌊x⌋ < 1 / 2 then ⌊x⌋
  else if 1 / 2 < x - ⌊x⌋ then ⌊x⌋ + 1
  else if ⌊x⌋ % 2 = 0 then ⌊x⌋ else ⌊x⌋ + 1

/-- The binary64 (Python `float`) value nearest to a rational: round to
nearest, ties to even, with a 53-bit significand at the exponent
`Int.log 2 |q|`.  The exponent is left unbounded, which agrees with
IEEE-754 doubles everywhere in the price range this client handles
(bid prices and percentage products never overflow or go subnormal). -/
def roundToDouble (q : ℚ) : ℚ :=
  if q = 0 then 0
  else if 0 < q then
    roundHalfEven (q / (2 : ℚ) ^ (Int.log 2 q - 52)) * (2 : ℚ) ^ (Int.log 2 q - 52)
  else
    -(roundHalfEven (-q / (2 : ℚ) ^ (Int.log 2 (-q) - 52)) * (2 : ℚ) ^ (Int.log 2 (-q) - 52))

/-- The probability derivation (lines 713-718):
`int(float(market.get("yes_bid_dollars", "0")) * 100)` with
`ValueError`/`TypeError` giving 0, computed in IEEE-754 double
arithmetic: `float()` returns the binary64 value nearest to the decimal
the field denotes (`roundToDouble q`), the product with the exact
constant 100 is correctly rounded (`roundToDouble (_ * 100)`), and
`int()` truncates.  An absent key defaults to the string `"0"`, which
parses to 0.0 and yields probability 0; an unparseable value
(`some none`) raises inside `float()` and the handler sets 0. -/
def parseProbability (bid : Option (Option ℚ)) : ℤ :=
  match bid with
  | some (some q) => pyInt (roundToDouble (roundToDouble q * 100))
  | some none => 0
  | none => 0

/-- Building one `MarketOption` from an active market (lines 720-730). -/
def toOption (series_ticker : String) (m : RawMarket) : MarketOption :=
  { name := m.yes_sub_title.getD "Unknown"
    probability := parseProbability m.yes_bid_dollars
    volume_24h := m.volume_24h.getD 0
    ticker := m.ticker
    price_change_24h := 0
    series_ticker := series_ticker }

/-- Descending comparison by an integer key: `keyGe key a b` holds when
`a` sorts no later than `b` under `sort(key=key, reverse=True)`. -/
def keyGe {α : Type} (key : α → ℤ) (a b : α) : Prop :=
  key b ≤ key a

instance {α : Type} (key : α → ℤ) : DecidableRel (keyGe key) :=
  fun a b => inferInstanceAs (Decidable (key b ≤ key a))

instance {α : Type} (key : α → ℤ) : IsTotal α (keyGe key) :=
  ⟨fun a b => le_total (key b) (key a)⟩

instance {α : Type} (key : α → ℤ) : IsTrans α (keyGe key) :=
  ⟨fun _ _ _ h₁ h₂ => le_trans h₂ h₁⟩

/-- Model of `options.sort(key=lambda x: x.probability, reverse=True)`
(line 733): Python's sort is stable, and a stable descending sort is
exactly insertion sort with the `keyGe` comparison. -/
def sortOptionsDesc (options : List MarketOption) : List MarketOption :=
  options.insertionSort (keyGe fun o => o.probability)

/-- Model of `all_events.sort(key=..., reverse=True)` (lines 751, 753,
774) for an integer sort key. -/
def sortEventsBy (key : EventData → ℤ) (events : List EventData) : List EventData :=
  events.insertionSort (keyGe key)

/-- The active-market selection
`[m for m in markets if m.get("status") == "active"]` (line 700). -/
def activeMarkets (ev : RawEvent) : List RawMarket :=
  ev.markets.filter fun m => decide (m.status = some "active")

/-- Processing of a single upstream event (lines 671-747): classify,
keep only active markets, drop the event if none remain, build options,
accumulate total volume, sort options by probability descending. -/
def aggregateEvent (category_lower : String) (ev : RawEvent) : Option EventData :=
  if eventMatches category_lower ev then
    if activeMarkets ev = [] then none
    else
      some
        { event_ticker := ev.event_ticker
          title := ev.title
          category := ev.category
          options := sortOptionsDesc ((activeMarkets ev).map (toOption ev.series_ticker))
          total_volume := ((activeMarkets ev).map fun m => m.volume_24h.getD 0).sum
          num_markets :=
            (sortOptionsDesc ((activeMarkets ev).map (toOption ev.series_ticker))).length
          max_price_change := 0
          series_ticker := ev.series_ticker }
  else none

/-- Steps 2-3 of `get_top_events_by_category` (lines 664-747): the event
loop, producing `all_events`. -/
def aggregate (category : String) (events : List RawEvent) : List EventData :=
  events.filterMap (aggregateEvent (lowerString category))

/-- A price candle as consumed by `get_price_change_24h`: the `"price"`
sub-dictionary with fields read by `price.get(key, 0) or 0`
(lines 315-317).  `none` models an absent key or a `null` value. -/
structure Candle where
  open_price : Option ℤ
  close_price : Option ℤ
  previous_price : Option ℤ
deriving DecidableEq

/-- Evaluation of `price.get(key, 0) or 0`: absent and `null` both give
0, and a stored 0 stays 0. -/
def orZero : Option ℤ → ℤ
  | none => 0
  | some v => v

/-- The 24-hour price change computation of `get_price_change_24h`
(lines 288-324), as a function of the fetched candlestick list
(`get_market_candlesticks` returns `{"candlesticks": []}` on any fetch
failure, lines 282-286).  `candlesticks[-1]` is the last element; the
`if previous_price:`/`elif open_price:` chain is Python integer
truthiness, i.e. a nonzero test. -/
def get_price_change_24h (candlesticks : List Candle) : ℤ :=
  match candlesticks.getLast? with
  | none => 0
  | some candle =>
    let open_price := orZero candle.open_price
    let close_price := orZero candle.close_price
    let previous_price := orZero candle.previous_price
    if previous_price ≠ 0 then close_price - previous_price
    else if open_price ≠ 0 then close_price - open_price
    else 0

/-- Outcome of calling `self.get_price_change_24h(series_ticker, ticker)`
for one option: `some change` when the call returns, `none` when it
raises (swallowed by the `except Exception: pass` at lines 769-770). -/
def CandleLookup : Type :=
  String → String → Option ℤ

/-- The running-maximum update (lines 767-768):
`if abs(change) > abs(max_change): max_change = change`. -/
def maxChangeStep (max_change change : ℤ) : ℤ :=
  if |change| > |max_change| then change else max_change

/-- Effect of the enrichment loop body on one option (lines 760-770):
only options with a nonempty series ticker and ticker are looked up, and
a raised lookup leaves the option untouched. -/
def enrichOption (lookup : CandleLookup) (o : MarketOption) : MarketOption :=
  if o.series_ticker ≠ "" ∧ o.ticker ≠ "" then
    match lookup o.series_ticker o.ticker with
    | some change => { o with price_change_24h := change }
    | none => o
  else o

/-- The change value the loop actually obtains for one option: `none`
when the option is skipped (empty tickers) or the lookup raises. -/
def effChange (lookup : CandleLookup) (o : MarketOption) : Option ℤ :=
  if o.series_ticker ≠ "" ∧ o.ticker ≠ "" then
    lookup o.series_ticker o.ticker
  else none

/-- The inner enrichment loop over one event's options (lines 758-770),
carrying the list of already-processed options and the running
`max_change` (initially 0). -/
def enrichLoop (lookup : CandleLookup) :
    List MarketOption → ℤ → List MarketOption → List MarketOption × ℤ
  | done, max_change, [] => (done, max_change)
  | done, max_change, o :: rest =>
    if o.series_ticker ≠ "" ∧ o.ticker ≠ "" then
      match lookup o.series_ticker o.ticker with
      | some change =>
        enrichLoop lookup (done ++ [{ o with price_change_24h := change }])
          (maxChangeStep max_change change) rest
      | none => enrichLoop lookup (done ++ [o]) max_change rest
    else enrichLoop lookup (done ++ [o]) max_change rest

/-- Enrichment of one event (lines 757-771): run the option loop, then
store the resulting `max_change` in `event_data.max_price_change`. -/
def enrichEvent (lookup : CandleLookup) (e : EventData) : EventData :=
  let result := enrichLoop lookup [] 0 e.options
  { e with options := result.1, max_price_change := result.2 }

/-- Step 4 of `get_top_events_by_category` (lines 749-774): the
`sort_by` dispatch.  The `"price_change"` branch first enriches every
event (per-option candle lookups) and then sorts by absolute
`max_price_change`; any unrecognized key leaves the list unsorted. -/
def rankEvents (lookup : CandleLookup) (sort_by : String)
    (all_events : List EventData) : List EventData :=
  if sort_by = "volume" then
    sortEventsBy (fun e => (e.total_volume : ℤ)) all_events
  else if sort_by = "num_markets" then
    sortEventsBy (fun e => (e.num_markets : ℤ)) all_events
  else if sort_by = "price_change" then
    sortEventsBy (fun e => |e.max_price_change|) (all_events.map (enrichEvent lookup))
  else all_events

/-- The full pipeline `get_top_events_by_category` (lines 600-777), with
the fetched event list and the candle lookup as explicit parameters:
classify and aggregate, rank, then return `all_events[:top_n]`. -/
def get_top_events_by_category (lookup : CandleLookup) (events : List RawEvent)
    (category : String) (top_n : ℕ) (sort_by : String) : List EventData :=
  let all_events := aggregate category events
  (rankEvents lookup sort_by all_events).take top_n

/-- Specification-side clamp used by the probability claim:
`clampInt lo hi x` confines `x` to `[lo, hi]`. -/
def clampInt (lo hi x : ℤ) : ℤ :=
  max lo (min hi x)

/-! ## Helper lemmas -/

theorem pyInt_eq_floor {q : ℚ} (h : 0 ≤ q) : pyInt q = ⌊q⌋ := by
  rw [pyInt, if_pos (Rat.num_nonneg.mpr h), Rat.floor_def]

theorem log2_eq {q : ℚ} {e : ℤ} (h1 : (2 : ℚ) ^ e ≤ q) (h2 : q < (2 : ℚ) ^ (e + 1)) :
    Int.log 2 q = e := by
  have hq : 0 < q := lt_of_lt_of_le (zpow_pos (by norm_num) e) h1
  have hcast : ((2 : ℕ) : ℚ) = (2 : ℚ) := by norm_num
  have hle : e ≤ Int.log 2 q :=
    (Int.zpow_le_iff_le_log (by norm_num) hq).mp (by rw [hcast]; exact h1)
  have hlt : Int.log 2 q < e + 1 :=
    (Int.lt_zpow_iff_log_lt (by norm_num) hq).mp (by rw [hcast]; exact h2)
  omega

theorem log2_bracket {q : ℚ} (hq : 0 < q) :
    (2 : ℚ) ^ Int.log 2 q ≤ q ∧ q < (2 : ℚ) ^ (Int.log 2 q + 1) := by
  constructor
  · have h := Int.zpow_log_le_self (show (1 : ℕ) < 2 by norm_num) hq
    simpa using h
  · have h := Int.lt_zpow_succ_log_self (show (1 : ℕ) < 2 by norm_num) q
    simpa using h

theorem roundHalfEven_eq_of_lt {x : ℚ} {n : ℤ} (h1 : (n : ℚ) ≤ x) (h2 : x < n + 1 / 2) :
    roundHalfEven x = n := by
  have hf : ⌊x⌋ = n := Int.floor_eq_iff.mpr ⟨h1, by linarith⟩
  rw [roundHalfEven, hf, if_pos (by linarith)]

theorem roundHalfEven_eq_of_gt {x : ℚ} {n : ℤ} (h1 : (n : ℚ) + 1 / 2 < x) (h2 : x < n + 1) :
    roundHalfEven x = n + 1 := by
  have hf : ⌊x⌋ = n := Int.floor_eq_iff.mpr ⟨by linarith, h2⟩
  rw [roundHalfEven, hf, if_neg (by linarith), if_pos (by linarith)]

theorem floor_le_roundHalfEven (x : ℚ) : ⌊x⌋ ≤ roundHalfEven x := by
  rw [roundHalfEven]
  split_ifs <;> omega

theorem roundHalfEven_le (x : ℚ) : (roundHalfEven x : ℚ) ≤ x + 1 / 2 := by
  have hfl := Int.floor_le x
  rw [roundHalfEven]
  split_ifs with hc1 hc2 hc3
  · linarith
  · push_cast
    linarith
  · linarith
  · push_cast
    have := not_lt.mp hc1
    linarith

theorem roundToDouble_pos_eq {q : ℚ} {e : ℤ} (hq : 0 < q)
    (h1 : (2 : ℚ) ^ e ≤ q) (h2 : q < (2 : ℚ) ^ (e + 1)) :
    roundToDouble q =
      roundHalfEven (q / (2 : ℚ) ^ (e - 52)) * (2 : ℚ) ^ (e - 52) := by
  rw [roundToDouble, if_neg hq.ne', if_pos hq, log2_eq h1 h2]

theorem roundToDouble_eq_down {q u : ℚ} {e n : ℤ} (hq : 0 < q)
    (hu : u = (2 : ℚ) ^ (e - 52))
    (h1 : (2 : ℚ) ^ e ≤ q) (h2 : q < (2 : ℚ) ^ (e + 1))
    (h3 : (n : ℚ) ≤ q / u) (h4 : q / u < n + 1 / 2) :
    roundToDouble q = n * u := by
  subst hu
  rw [roundToDouble_pos_eq hq h1 h2, roundHalfEven_eq_of_lt h3 h4]

theorem roundToDouble_eq_up {q u : ℚ} {e n : ℤ} (hq : 0 < q)
    (hu : u = (2 : ℚ) ^ (e - 52))
    (h1 : (2 : ℚ) ^ e ≤ q) (h2 : q < (2 : ℚ) ^ (e + 1))
    (h3 : (n : ℚ) + 1 / 2 < q / u) (h4 : q / u < n + 1) :
    roundToDouble q = (n + 1) * u := by
  subst hu
  rw [roundToDouble_pos_eq hq h1 h2, roundHalfEven_eq_of_gt h3 h4]
  push_cast
  ring

theorem roundToDouble_zero : roundToDouble 0 = 0 := by
  rw [roundToDouble, if_pos rfl]

theorem roundToDouble_nonneg {q : ℚ} (h : 0 ≤ q) : 0 ≤ roundToDouble q := by
  rcases eq_or_lt_of_le h with heq | hq
  · rw [← heq, roundToDouble_zero]
  · obtain ⟨h1, h2⟩ := log2_bracket hq
    rw [roundToDouble_pos_eq hq h1 h2]
    have hulp : (0 : ℚ) < (2 : ℚ) ^ (Int.log 2 q - 52) := zpow_pos (by norm_num) _
    have hx : (0 : ℚ) ≤ q / (2 : ℚ) ^ (Int.log 2 q - 52) := by positivity
    have hfl : (0 : ℤ) ≤ ⌊q / (2 : ℚ) ^ (Int.log 2 q - 52)⌋ := Int.floor_nonneg.mpr hx
    have hn := floor_le_roundHalfEven (q / (2 : ℚ) ^ (Int.log 2 q - 52))
    have hnn : (0 : ℚ) ≤ (roundHalfEven (q / (2 : ℚ) ^ (Int.log 2 q - 52)) : ℚ) := by
      exact_mod_cast le_trans hfl hn
    positivity

theorem roundToDouble_le {q : ℚ} {e : ℤ} (hq : 0 < q)
    (h1 : (2 : ℚ) ^ e ≤ q) (h2 : q < (2 : ℚ) ^ (e + 1)) :
    roundToDouble q ≤ q + (2 : ℚ) ^ (e - 53) := by
  rw [roundToDouble_pos_eq hq h1 h2]
  have hulp : (0 : ℚ) < (2 : ℚ) ^ (e - 52) := zpow_pos (by norm_num) _
  have hrhe := roundHalfEven_le (q / (2 : ℚ) ^ (e - 52))
  have step1 : (roundHalfEven (q / (2 : ℚ) ^ (e - 52)) : ℚ) * (2 : ℚ) ^ (e - 52) ≤
      (q / (2 : ℚ) ^ (e - 52) + 1 / 2) * (2 : ℚ) ^ (e - 52) :=
    mul_le_mul_of_nonneg_right hrhe hulp.le
  have step2 : (q / (2 : ℚ) ^ (e - 52) + 1 / 2) * (2 : ℚ) ^ (e - 52) =
      q + (2 : ℚ) ^ (e - 53) := by
    rw [add_mul, div_mul_cancel₀ _ hulp.ne']
    rw [show e - 52 = (e - 53) + 1 by ring, zpow_add_one₀ (show (2 : ℚ) ≠ 0 by norm_num)]
    ring
  linarith

theorem parseProbability_29 : parseProbability (some (some (29 / 100))) = 28 := by
  show pyInt (roundToDouble (roundToDouble (29 / 100) * 100)) = 28
  have s1 : roundToDouble (29 / 100) = 5224175567749775 / 18014398509481984 := by
    rw [roundToDouble_eq_down (show (0 : ℚ) < 29 / 100 by norm_num)
      (show (1 : ℚ) / 18014398509481984 = (2 : ℚ) ^ ((-2 : ℤ) - 52) by norm_num)
      (show (2 : ℚ) ^ (-2 : ℤ) ≤ 29 / 100 by norm_num)
      (show (29 : ℚ) / 100 < (2 : ℚ) ^ ((-2 : ℤ) + 1) by norm_num)
      (show ((5224175567749775 : ℤ) : ℚ) ≤ 29 / 100 / ((1 : ℚ) / 18014398509481984) by
        norm_num)
      (show (29 : ℚ) / 100 / ((1 : ℚ) / 18014398509481984) <
          (5224175567749775 : ℤ) + 1 / 2 by norm_num)]
    norm_num
  rw [s1]
  have s2 : roundToDouble (5224175567749775 / 18014398509481984 * 100) =
      8162774324609023 / 281474976710656 := by
    rw [roundToDouble_eq_down
      (show (0 : ℚ) < 5224175567749775 / 18014398509481984 * 100 by norm_num)
      (show (1 : ℚ) / 281474976710656 = (2 : ℚ) ^ ((4 : ℤ) - 52) by norm_num)
      (show (2 : ℚ) ^ (4 : ℤ) ≤ 5224175567749775 / 18014398509481984 * 100 by norm_num)
      (show (5224175567749775 : ℚ) / 18014398509481984 * 100 < (2 : ℚ) ^ ((4 : ℤ) + 1) by
        norm_num)
      (show ((8162774324609023 : ℤ) : ℚ) ≤
          5224175567749775 / 18014398509481984 * 100 / ((1 : ℚ) / 281474976710656) by
        norm_num)
      (show (5224175567749775 : ℚ) / 18014398509481984 * 100 / ((1 : ℚ) / 281474976710656) <
          (8162774324609023 : ℤ) + 1 / 2 by norm_num)]
    norm_num
  rw [s2, pyInt_eq_floor (by norm_num)]
  rw [Int.floor_eq_iff]
  constructor
  · norm_num
  · norm_num

theorem parseProbability_955 : parseProbability (some (some (955 / 1000))) = 95 := by
  show pyInt (roundToDouble (roundToDouble (955 / 1000) * 100)) = 95
  have s1 : roundToDouble (955 / 1000) = 8601875288277647 / 9007199254740992 := by
    rw [roundToDouble_eq_down (show (0 : ℚ) < 955 / 1000 by norm_num)
      (show (1 : ℚ) / 9007199254740992 = (2 : ℚ) ^ ((-1 : ℤ) - 52) by norm_num)
      (show (2 : ℚ) ^ (-1 : ℤ) ≤ 955 / 1000 by norm_num)
      (show (955 : ℚ) / 1000 < (2 : ℚ) ^ ((-1 : ℤ) + 1) by norm_num)
      (show ((8601875288277647 : ℤ) : ℚ) ≤ 955 / 1000 / ((1 : ℚ) / 9007199254740992) by
        norm_num)
      (show (955 : ℚ) / 1000 / ((1 : ℚ) / 9007199254740992) <
          (8601875288277647 : ℤ) + 1 / 2 by norm_num)]
    norm_num
  rw [s1]
  have s2 : roundToDouble (8601875288277647 / 9007199254740992 * 100) = 191 / 2 := by
    rw [roundToDouble_eq_up
      (show (0 : ℚ) < 8601875288277647 / 9007199254740992 * 100 by norm_num)
      (show (1 : ℚ) / 70368744177664 = (2 : ℚ) ^ ((6 : ℤ) - 52) by norm_num)
      (show (2 : ℚ) ^ (6 : ℤ) ≤ 8601875288277647 / 9007199254740992 * 100 by norm_num)
      (show (8601875288277647 : ℚ) / 9007199254740992 * 100 < (2 : ℚ) ^ ((6 : ℤ) + 1) by
        norm_num)
      (show ((6720215068966911 : ℤ) : ℚ) + 1 / 2 <
          8601875288277647 / 9007199254740992 * 100 / ((1 : ℚ) / 70368744177664) by
        norm_num)
      (show (8601875288277647 : ℚ) / 9007199254740992 * 100 / ((1 : ℚ) / 70368744177664) <
          (6720215068966911 : ℤ) + 1 by norm_num)]
    norm_num
  rw [s2, pyInt_eq_floor (by norm_num)]
  rw [Int.floor_eq_iff]
  constructor
  · norm_num
  · norm_num

theorem parseProbability_one : parseProbability (some (some 1)) = 100 := by
  show pyInt (roundToDouble (roundToDouble 1 * 100)) = 100
  have s1 : roundToDouble (1 : ℚ) = 1 := by
    rw [roundToDouble_eq_down (show (0 : ℚ) < 1 by norm_num)
      (show (1 : ℚ) / 4503599627370496 = (2 : ℚ) ^ ((0 : ℤ) - 52) by norm_num)
      (show (2 : ℚ) ^ (0 : ℤ) ≤ 1 by norm_num)
      (show (1 : ℚ) < (2 : ℚ) ^ ((0 : ℤ) + 1) by norm_num)
      (show ((4503599627370496 : ℤ) : ℚ) ≤ 1 / ((1 : ℚ) / 4503599627370496) by norm_num)
      (show (1 : ℚ) / ((1 : ℚ) / 4503599627370496) < (4503599627370496 : ℤ) + 1 / 2 by
        norm_num)]
    norm_num
  rw [s1, one_mul]
  have s2 : roundToDouble (100 : ℚ) = 100 := by
    rw [roundToDouble_eq_down (show (0 : ℚ) < 100 by norm_num)
      (show (1 : ℚ) / 70368744177664 = (2 : ℚ) ^ ((6 : ℤ) - 52) by norm_num)
      (show (2 : ℚ) ^ (6 : ℤ) ≤ 100 by norm_num)
      (show (100 : ℚ) < (2 : ℚ) ^ ((6 : ℤ) + 1) by norm_num)
      (show ((7036874417766400 : ℤ) : ℚ) ≤ 100 / ((1 : ℚ) / 70368744177664) by norm_num)
      (show (100 : ℚ) / ((1 : ℚ) / 70368744177664) < (7036874417766400 : ℤ) + 1 / 2 by
        norm_num)]
    norm_num
  rw [s2, pyInt_eq_floor (by norm_num),
    show (100 : ℚ) = ((100 : ℤ) : ℚ) by norm_num, Int.floor_intCast]

theorem parseProbability_float_bounds {q : ℚ} (h0 : 0 ≤ q) (h1 : q ≤ 1) :
    0 ≤ parseProbability (some (some q)) ∧ parseProbability (some (some q)) ≤ 100 := by
  show 0 ≤ pyInt (roundToDouble (roundToDouble q * 100)) ∧
    pyInt (roundToDouble (roundToDouble q * 100)) ≤ 100
  have hv1n : 0 ≤ roundToDouble q := roundToDouble_nonneg h0
  have hv2n : 0 ≤ roundToDouble (roundToDouble q * 100) :=
    roundToDouble_nonneg (by positivity)
  rw [pyInt_eq_floor hv2n]
  refine ⟨Int.floor_nonneg.mpr hv2n, ?_⟩
  have hv2lt : roundToDouble (roundToDouble q * 100) < 101 := by
    rcases eq_or_lt_of_le hv1n with heq | hpos
    · rw [← heq]
      norm_num [roundToDouble_zero]
    · have hq : 0 < q := by
        rcases eq_or_lt_of_le h0 with h00 | h00
        · exfalso
          rw [← h00, roundToDouble_zero] at hpos
          exact lt_irrefl 0 hpos
        · exact h00
      obtain ⟨hq1, hq2⟩ := log2_bracket hq
      have hle1 : roundToDouble q ≤ q + (2 : ℚ) ^ (Int.log 2 q - 53) :=
        roundToDouble_le hq hq1 hq2
      have helog : Int.log 2 q ≤ 0 := by
        have h : Int.log 2 q ≤ Int.log 2 (1 : ℚ) := Int.log_mono_right hq h1
        simpa using h
      have hsmall : (2 : ℚ) ^ (Int.log 2 q - 53) ≤ (2 : ℚ) ^ (-10 : ℤ) :=
        zpow_le_zpow_right₀ (by norm_num) (by omega)
      rw [show (2 : ℚ) ^ (-10 : ℤ) = 1 / 1024 by norm_num] at hsmall
      have hv1le : roundToDouble q ≤ 1 + 1 / 1024 := by linarith
      have hppos : 0 < roundToDouble q * 100 := by positivity
      obtain ⟨hpb1, hpb2⟩ := log2_bracket hppos
      have hle2 : roundToDouble (roundToDouble q * 100) ≤
          roundToDouble q * 100 + (2 : ℚ) ^ (Int.log 2 (roundToDouble q * 100) - 53) :=
        roundToDouble_le hppos hpb1 hpb2
      have he2 : Int.log 2 (roundToDouble q * 100) ≤ 6 := by
        have h128 : roundToDouble q * 100 < ((2 : ℕ) : ℚ) ^ (7 : ℤ) := by
          have hcast : ((2 : ℕ) : ℚ) ^ (7 : ℤ) = 128 := by norm_num
          rw [hcast]
          linarith
        have h := (Int.lt_zpow_iff_log_lt (by norm_num) hppos).mp h128
        omega
      have hsmall2 : (2 : ℚ) ^ (Int.log 2 (roundToDouble q * 100) - 53) ≤
          (2 : ℚ) ^ (-10 : ℤ) :=
        zpow_le_zpow_right₀ (by norm_num) (by omega)
      rw [show (2 : ℚ) ^ (-10 : ℤ) = 1 / 1024 by norm_num] at hsmall2
      linarith
  have h101 := Int.floor_lt.mpr
    (show roundToDouble (roundToDouble q * 100) < ((101 : ℤ) : ℚ) by exact_mod_cast hv2lt)
  omega

theorem aggregateEvent_eq_some {category_lower : String} {ev : RawEvent} {e : EventData}
    (h : aggregateEvent category_lower ev = some e) :
    eventMatches category_lower ev = true ∧
      activeMarkets ev ≠ [] ∧
      e.options = sortOptionsDesc ((activeMarkets ev).map (toOption ev.series_ticker)) ∧
      e.total_volume = ((activeMarkets ev).map fun m => m.volume_24h.getD 0).sum ∧
      e.num_markets = e.options.length ∧
      e.max_price_change = 0 := by
  unfold aggregateEvent at h
  by_cases hm : eventMatches category_lower ev = true
  · rw [if_pos hm] at h
    by_cases ha : activeMarkets ev = []
    · rw [if_pos ha] at h
      exact absurd h (by simp)
    · rw [if_neg ha] at h
      injection h with h
      subst h
      exact ⟨hm, ha, rfl, rfl, rfl, rfl⟩
  · rw [if_neg hm] at h
    exact absurd h (by simp)

theorem mem_aggregate {category : String} {events : List RawEvent} {e : EventData}
    (h : e ∈ aggregate category events) :
    ∃ ev ∈ events, aggregateEvent (lowerString category) ev = some e := by
  simpa [aggregate] using List.mem_filterMap.mp h

theorem filter_insertionSort_keyGe {α : Type} (key : α → ℤ) (p : ℤ) (l : List α) :
    (l.insertionSort (keyGe key)).filter (fun x => decide (key x = p)) =
      l.filter (fun x => decide (key x = p)) := by
  have hpw : (l.filter (fun x => decide (key x = p))).Pairwise (keyGe key) := by
    refine List.pairwise_of_forall_mem_list ?_
    intro a ha b hb
    have ha2 : key a = p := by simpa using (List.mem_filter.mp ha).2
    have hb2 : key b = p := by simpa using (List.mem_filter.mp hb).2
    exact le_of_eq (hb2.trans ha2.symm)
  have hsub : (l.filter (fun x => decide (key x = p))).Sublist (l.insertionSort (keyGe key)) :=
    List.sublist_insertionSort hpw (List.filter_sublist l)
  have hsub2 : (l.filter (fun x => decide (key x = p))).Sublist
      ((l.insertionSort (keyGe key)).filter (fun x => decide (key x = p))) := by
    have h3 := hsub.filter (fun x => decide (key x = p))
    simpa [List.filter_filter] using h3
  have hlen : ((l.insertionSort (keyGe key)).filter (fun x => decide (key x = p))).length =
      (l.filter (fun x => decide (key x = p))).length :=
    ((List.perm_insertionSort (keyGe key) l).filter _).length_eq
  exact (hsub2.eq_of_length hlen.symm).symm

theorem isInfixOf_nil_left : ∀ l : List Char, isInfixOf [] l = true
  | [] => rfl
  | _ :: _ => rfl

theorem substrOf_nil_left (s : String) : substrOf "" s = true :=
  isInfixOf_nil_left s.data

theorem categoryMapping_ne_nil (c : String) : categoryMapping c ≠ [] := by
  rw [categoryMapping]
  by_cases h1 : c = "economics"
  · rw [if_pos h1]; exact List.cons_ne_nil _ _
  rw [if_neg h1]
  by_cases h2 : c = "crypto"
  · rw [if_pos h2]; exact List.cons_ne_nil _ _
  rw [if_neg h2]
  by_cases h3 : c = "politics"
  · rw [if_pos h3]; exact List.cons_ne_nil _ _
  rw [if_neg h3]
  by_cases h4 : c = "elections"
  · rw [if_pos h4]; exact List.cons_ne_nil _ _
  rw [if_neg h4]
  by_cases h5 : c = "financials"
  · rw [if_pos h5]; exact List.cons_ne_nil _ _
  rw [if_neg h5]
  by_cases h6 : c = "sports"
  · rw [if_pos h6]; exact List.cons_ne_nil _ _
  rw [if_neg h6]
  by_cases h7 : c = "entertainment"
  · rw [if_pos h7]; exact List.cons_ne_nil _ _
  rw [if_neg h7]
  by_cases h8 : c = "climate"
  · rw [if_pos h8]; exact List.cons_ne_nil _ _
  rw [if_neg h8]
  by_cases h9 : c = "weather"
  · rw [if_pos h9]; exact List.cons_ne_nil _ _
  rw [if_neg h9]
  by_cases h10 : c = "health"
  · rw [if_pos h10]; exact List.cons_ne_nil _ _
  rw [if_neg h10]
  by_cases h11 : c = "science"
  · rw [if_pos h11]; exact List.cons_ne_nil _ _
  rw [if_neg h11]
  by_cases h12 : c = "technology"
  · rw [if_pos h12]; exact List.cons_ne_nil _ _
  rw [if_neg h12]
  by_cases h13 : c = "world"
  · rw [if_pos h13]; exact List.cons_ne_nil _ _
  rw [if_neg h13]
  by_cases h14 : c = "companies"
  · rw [if_pos h14]; exact List.cons_ne_nil _ _
  rw [if_neg h14]
  by_cases h15 : c = "social"
  · rw [if_pos h15]; exact List.cons_ne_nil _ _
  rw [if_neg h15]
  by_cases h16 : c = "transportation"
  · rw [if_pos h16]; exact List.cons_ne_nil _ _
  rw [if_neg h16]
  exact List.cons_ne_nil _ _

theorem baseCategoryMatch_empty (cl : String) : baseCategoryMatch cl "" = true := by
  unfold baseCategoryMatch
  obtain ⟨t, ts, h⟩ : ∃ t ts, categoryMapping cl = t :: ts := by
    rcases hm : categoryMapping cl with _ | ⟨t, ts⟩
    · exact absurd hm (categoryMapping_ne_nil cl)
    · exact ⟨t, ts, rfl⟩
  rw [h, List.any_cons, substrOf_nil_left]
  simp

theorem maxChangeStep_zero (m : ℤ) : maxChangeStep m 0 = m := by
  rw [maxChangeStep, if_neg]
  simp

theorem enrichLoop_eq (lookup : CandleLookup) (l : List MarketOption) :
    ∀ (done : List MarketOption) (m : ℤ),
      enrichLoop lookup done m l =
        (done ++ l.map (enrichOption lookup),
          (l.filterMap (effChange lookup)).foldl maxChangeStep m) := by
  induction l with
  | nil => intro done m; simp [enrichLoop]
  | cons o rest ih =>
    intro done m
    by_cases hc : o.series_ticker ≠ "" ∧ o.ticker ≠ ""
    · rw [enrichLoop, if_pos hc]
      cases hL : lookup o.series_ticker o.ticker with
      | some change =>
        simp [ih, enrichOption, effChange, hc, hL, List.filterMap_cons]
      | none =>
        simp [ih, enrichOption, effChange, hc, hL, List.filterMap_cons]
    · rw [enrichLoop, if_neg hc]
      simp [ih, enrichOption, effChange, hc, List.filterMap_cons]

theorem enrichEvent_options (lookup : CandleLookup) (e : EventData) :
    (enrichEvent lookup e).options = e.options.map (enrichOption lookup) := by
  unfold enrichEvent
  rw [enrichLoop_eq]
  simp

theorem enrichEvent_max (lookup : CandleLookup) (e : EventData) :
    (enrichEvent lookup e).max_price_change =
      (e.options.filterMap (effChange lookup)).foldl maxChangeStep 0 := by
  unfold enrichEvent
  rw [enrichLoop_eq]

theorem enrichEvent_fields (lookup : CandleLookup) (e : EventData) :
    (enrichEvent lookup e).event_ticker = e.event_ticker ∧
      (enrichEvent lookup e).title = e.title ∧
      (enrichEvent lookup e).total_volume = e.total_volume := by
  unfold enrichEvent
  rw [enrichLoop_eq]
  exact ⟨rfl, rfl, rfl⟩

theorem enrichOption_price (lookup : CandleLookup) (o : MarketOption) :
    (enrichOption lookup o).price_change_24h = (effChange lookup o).getD o.price_change_24h := by
  unfold enrichOption effChange
  by_cases hc : o.series_ticker ≠ "" ∧ o.ticker ≠ ""
  · rw [if_pos hc, if_pos hc]
    cases lookup o.series_ticker o.ticker <;> rfl
  · rw [if_neg hc, if_neg hc]
    rfl

theorem foldl_maxChangeStep_map_getD (lookup : CandleLookup) (opts : List MarketOption) :
    ∀ m : ℤ,
      (opts.map fun o => (effChange lookup o).getD 0).foldl maxChangeStep m =
        (opts.filterMap (effChange lookup)).foldl maxChangeStep m := by
  induction opts with
  | nil => intro m; simp
  | cons o rest ih =>
    intro m
    cases hL : effChange lookup o with
    | none => simp [hL, List.filterMap_cons, maxChangeStep_zero, ih]
    | some c => simp [hL, List.filterMap_cons, ih]

theorem foldl_maxChangeStep_spec (cs : List ℤ) (a : ℤ) :
    (cs.foldl maxChangeStep a = a ∧ ∀ c ∈ cs, |c| ≤ |a|) ∨
      ∃ i, ∃ hi : i < cs.length,
        cs.foldl maxChangeStep a = cs[i] ∧ |a| < |cs[i]| ∧
          (∀ j, ∀ hj : j < cs.length, |cs[j]| ≤ |cs[i]|) ∧
          (∀ j, ∀ hj : j < cs.length, j < i → |cs[j]| < |cs[i]|) := by
  induction cs generalizing a with
  | nil => exact Or.inl ⟨rfl, by simp⟩
  | cons c rest ih =>
    rw [List.foldl_cons]
    by_cases h : |c| > |a|
    · rw [show maxChangeStep a c = c from if_pos h]
      rcases ih c with ⟨heq, hall⟩ | ⟨i, hi, heq, hgt, hmax, hfirst⟩
      · refine Or.inr ⟨0, by simp, by simpa using heq, by simpa using h, ?_, ?_⟩
        · intro j hj
          cases j with
          | zero => simp
          | succ k =>
            have hk : k < rest.length := by simpa using hj
            simpa using hall rest[k] (rest.getElem_mem hk)
        · intro j hj hj0
          omega
      · refine Or.inr ⟨i + 1, by simpa using Nat.succ_lt_succ hi, by simpa using heq, ?_, ?_, ?_⟩
        · simpa using lt_trans h hgt
        · intro j hj
          cases j with
          | zero => simpa using le_of_lt hgt
          | succ k =>
            have hk : k < rest.length := by simpa using hj
            simpa using hmax k hk
        · intro j hj hlt
          cases j with
          | zero => simpa using hgt
          | succ k =>
            have hk : k < rest.length := by simpa using hj
            simpa using hfirst k hk (by omega)
    · rw [show maxChangeStep a c = a from if_neg h]
      rcases ih a with ⟨heq, hall⟩ | ⟨i, hi, heq, hgt, hmax, hfirst⟩
      · refine Or.inl ⟨heq, ?_⟩
        intro x hx
        rcases List.mem_cons.mp hx with rfl | hx
        · exact not_lt.mp h
        · exact hall x hx
      · refine Or.inr ⟨i + 1, by simpa using Nat.succ_lt_succ hi, by simpa using heq,
          by simpa using hgt, ?_, ?_⟩
        · intro j hj
          cases j with
          | zero => simpa using le_trans (not_lt.mp h) (le_of_lt hgt)
          | succ k =>
            have hk : k < rest.length := by simpa using hj
            simpa using hmax k hk
        · intro j hj hlt
          cases j with
          | zero => simpa using lt_of_le_of_lt (not_lt.mp h) hgt
          | succ k =>
            have hk : k < rest.length := by simpa using hj
            simpa using hfirst k hk (by omega)

theorem mem_options_of_aggregate {category : String} {events : List RawEvent}
    {e : EventData} {o : MarketOption} (he : e ∈ aggregate category events)
    (ho : o ∈ e.options) :
    ∃ ev ∈ events, ∃ m ∈ ev.markets, o = toOption ev.series_ticker m := by
  obtain ⟨ev, hev, hsome⟩ := mem_aggregate he
  obtain ⟨-, -, hopts, -, -, -⟩ := aggregateEvent_eq_some hsome
  rw [hopts, sortOptionsDesc] at ho
  have ho2 : o ∈ (activeMarkets ev).map (toOption ev.series_ticker) :=
    (List.mem_insertionSort _).mp ho
  obtain ⟨m, hm, rfl⟩ := List.mem_map.mp ho2
  rw [activeMarkets] at hm
  exact ⟨ev, hev, m, (List.mem_filter.mp hm).1, rfl⟩

/-! ## Claim theorems -/

/-- C1 counterexample: the program computes `int(float(bid) * 100)` in
IEEE-754 double arithmetic, and at the realistic bid 0.29 the rounded
double product `float(0.29) * 100` falls just below 29, so the code
derives probability 28 while the claimed formula
`clamp(floor(bid * 100), 0, 100)` gives 29. -/
theorem C1_counterexample :
    parseProbability (some (some (29 / 100))) = 28 ∧
      clampInt 0 100 ⌊(29 / 100 : ℚ) * 100⌋ = 29 ∧
      parseProbability (some (some (29 / 100))) ≠
        clampInt 0 100 ⌊(29 / 100 : ℚ) * 100⌋ := by
  have hclamp : clampInt 0 100 ⌊(29 / 100 : ℚ) * 100⌋ = 29 := by
    rw [clampInt, show (29 / 100 : ℚ) * 100 = ((29 : ℤ) : ℚ) by norm_num,
      Int.floor_intCast]
    decide
  refine ⟨parseProbability_29, hclamp, ?_⟩
  rw [parseProbability_29, hclamp]
  decide

/-- C1 as amended: the derived probability is `int(float(bid) * 100)`
evaluated in correctly-rounded binary64 arithmetic, which can fall one
below `clamp(floor(bid * 100), 0, 100)` when the double product rounds
just under an integer (bid 0.29 gives 28, see `C1_counterexample`); the
documented cases still hold — bid 0.955 yields 95, bid 1.0 yields 100, a
missing or non-numeric bid yields 0 without an error — and the
probability of every produced option lies in `[0, 100]` for bid prices
in `[0, 1]`. -/
theorem C1_probability_float (category : String) (events : List RawEvent)
    (hin : ∀ ev ∈ events, ∀ m ∈ ev.markets, ∀ q : ℚ,
      m.yes_bid_dollars = some (some q) → 0 ≤ q ∧ q ≤ 1) :
    parseProbability (some (some (955 / 1000))) = 95 ∧
      parseProbability (some (some 1)) = 100 ∧
      parseProbability none = 0 ∧
      parseProbability (some none) = 0 ∧
      (∀ q : ℚ, 0 ≤ q → q ≤ 1 →
        0 ≤ parseProbability (some (some q)) ∧ parseProbability (some (some q)) ≤ 100) ∧
      ∀ e ∈ aggregate category events, ∀ o ∈ e.options,
        0 ≤ o.probability ∧ o.probability ≤ 100 := by
  refine ⟨parseProbability_955, parseProbability_one, rfl, rfl,
    fun q h0 h1 => parseProbability_float_bounds h0 h1, ?_⟩
  intro e he o ho
  obtain ⟨ev, hev, m, hm, rfl⟩ := mem_options_of_aggregate he ho
  show 0 ≤ parseProbability m.yes_bid_dollars ∧ parseProbability m.yes_bid_dollars ≤ 100
  rcases hbid : m.yes_bid_dollars with _ | (_ | q)
  · simp [parseProbability]
  · simp [parseProbability]
  · obtain ⟨h0, h1⟩ := hin ev hev m hm q hbid
    exact parseProbability_float_bounds h0 h1

/-- Sample input data used by the concrete witnesses. -/
def sampleMarket : RawMarket :=
  { ticker := "T1", status := some "active", yes_bid_dollars := none,
    yes_sub_title := some "Yes", volume_24h := some 10 }

/-- Sample event with one active market. -/
def sampleEvent : RawEvent :=
  { event_ticker := "E1", title := "Game tonight", category := "Sports",
    series_ticker := "S1", markets := [sampleMarket] }

/-- Witness for the amended C1 at a concrete input. -/
theorem C1_probability_float_witness :
    (∀ ev ∈ [sampleEvent], ∀ m ∈ ev.markets, ∀ q : ℚ,
        m.yes_bid_dollars = some (some q) → 0 ≤ q ∧ q ≤ 1) ∧
      ∀ e ∈ aggregate "sports" [sampleEvent], ∀ o ∈ e.options,
        0 ≤ o.probability ∧ o.probability ≤ 100 := by
  have h : ∀ ev ∈ [sampleEvent], ∀ m ∈ ev.markets, ∀ q : ℚ,
      m.yes_bid_dollars = some (some q) → 0 ≤ q ∧ q ≤ 1 := by
    intro ev hev m hm q hq
    simp only [List.mem_singleton] at hev
    subst hev
    simp only [sampleEvent, List.mem_singleton] at hm
    subst hm
    simp [sampleMarket] at hq
  exact ⟨h, (C1_probability_float "sports" [sampleEvent] h).2.2.2.2.2⟩

/-- C2: an upstream event none of whose markets is active contributes
nothing to the aggregation output, and every produced event has at least
one option. -/
theorem C2_inactive_events_dropped (category : String) (evs₁ evs₂ : List RawEvent)
    (ev : RawEvent) (h : ∀ m ∈ ev.markets, m.status ≠ some "active") :
    aggregate category (evs₁ ++ ev :: evs₂) = aggregate category (evs₁ ++ evs₂) ∧
      ∀ events : List RawEvent, ∀ e ∈ aggregate category events, e.options ≠ [] := by
  constructor
  · have hnone : aggregateEvent (lowerString category) ev = none := by
      have ha : activeMarkets ev = [] := by
        rw [activeMarkets]
        refine List.filter_eq_nil_iff.mpr ?_
        intro m hm
        simpa using h m hm
      rw [aggregateEvent]
      by_cases hm : eventMatches (lowerString category) ev = true
      · rw [if_pos hm, if_pos ha]
      · rw [if_neg hm]
    simp [aggregate, List.filterMap_append, List.filterMap_cons, hnone]
  · intro events e he
    obtain ⟨ev', hev', hsome⟩ := mem_aggregate he
    obtain ⟨-, hne, hopts, -, -, -⟩ := aggregateEvent_eq_some hsome
    rw [hopts, sortOptionsDesc]
    intro hnil
    apply hne
    have hp := List.perm_insertionSort (keyGe fun o => o.probability)
      ((activeMarkets ev').map (toOption ev'.series_ticker))
    rw [hnil] at hp
    have hmapnil : (activeMarkets ev').map (toOption ev'.series_ticker) = [] :=
      hp.symm.eq_nil
    exact List.map_eq_nil_iff.mp hmapnil

/-- Sample event whose single market is not active. -/
def inactiveEvent : RawEvent :=
  { event_ticker := "E2", title := "Quiet event", category := "Sports",
    series_ticker := "S2",
    markets := [{ ticker := "T2", status := some "closed", yes_bid_dollars := none,
                  yes_sub_title := some "No", volume_24h := some 5 }] }

/-- Witness for C2 at a concrete input. -/
theorem C2_inactive_events_dropped_witness :
    (∀ m ∈ inactiveEvent.markets, m.status ≠ some "active") ∧
      aggregate "sports" ([] ++ inactiveEvent :: [sampleEvent]) =
        aggregate "sports" ([] ++ [sampleEvent]) := by
  have h : ∀ m ∈ inactiveEvent.markets, m.status ≠ some "active" := by decide
  exact ⟨h, (C2_inactive_events_dropped "sports" [] [sampleEvent] inactiveEvent h).1⟩

/-- C8: every aggregated event's total volume is the sum of its
options' 24h volumes, and its market count is its number of options. -/
theorem C8_totals (category : String) (events : List RawEvent) :
    ∀ e ∈ aggregate category events,
      (e.options.map fun o => o.volume_24h).sum = e.total_volume ∧
        e.num_markets = e.options.length := by
  intro e he
  obtain ⟨ev, hev, hsome⟩ := mem_aggregate he
  obtain ⟨-, -, hopts, hvol, hnum, -⟩ := aggregateEvent_eq_some hsome
  refine ⟨?_, hnum⟩
  rw [hopts, hvol, sortOptionsDesc]
  have hp := (List.perm_insertionSort (keyGe fun o => o.probability)
      ((activeMarkets ev).map (toOption ev.series_ticker))).map
      (fun o => o.volume_24h)
  rw [hp.sum_eq, List.map_map]
  rfl

/-- The event produced by aggregating `sampleEvent`. -/
def aggregatedSample : EventData :=
  { event_ticker := "E1", title := "Game tonight", category := "Sports",
    options := [{ name := "Yes", probability := 0, volume_24h := 10,
                  ticker := "T1", price_change_24h := 0, series_ticker := "S1" }],
    total_volume := 10, num_markets := 1, max_price_change := 0,
    series_ticker := "S1" }

/-- Witness for C8 at a concrete input. -/
theorem C8_totals_witness :
    (aggregatedSample.options.map fun o => o.volume_24h).sum = aggregatedSample.total_volume ∧
      aggregatedSample.num_markets = aggregatedSample.options.length :=
  C8_totals "sports" [sampleEvent] aggregatedSample (by decide)

/-- C3: both pipeline sorts are stable: options of equal probability
keep their relative (upstream) order under the aggregator's descending
sort, and events of equal sort-key value keep their pre-sort order under
the ranker's sort.  Stability is stated as invariance of the equal-key
subsequence: filtering the sorted list to any fixed key value returns
exactly the same list as filtering the input. -/
theorem C3_sort_stability (p : ℤ) (l : List MarketOption) (key : EventData → ℤ) (v : ℤ)
    (evs : List EventData) (category_lower : String) (ev : RawEvent) (e : EventData)
    (he : aggregateEvent category_lower ev = some e) :
    (sortOptionsDesc l).filter (fun o => decide (o.probability = p)) =
        l.filter (fun o => decide (o.probability = p)) ∧
      (sortEventsBy key evs).filter (fun x => decide (key x = v)) =
        evs.filter (fun x => decide (key x = v)) ∧
      e.options.filter (fun o => decide (o.probability = p)) =
        ((activeMarkets ev).map (toOption ev.series_ticker)).filter
          (fun o => decide (o.probability = p)) := by
  obtain ⟨-, -, hopts, -, -, -⟩ := aggregateEvent_eq_some he
  refine ⟨filter_insertionSort_keyGe _ p l, filter_insertionSort_keyGe key v evs, ?_⟩
  rw [hopts, sortOptionsDesc]
  exact filter_insertionSort_keyGe _ p _

/-- Witness for C3 at a concrete input. -/
theorem C3_sort_stability_witness :
    aggregateEvent "sports" sampleEvent = some aggregatedSample ∧
      aggregatedSample.options.filter (fun o => decide (o.probability = 0)) =
        ((activeMarkets sampleEvent).map (toOption sampleEvent.series_ticker)).filter
          (fun o => decide (o.probability = 0)) := by
  have h : aggregateEvent "sports" sampleEvent = some aggregatedSample := by decide
  exact ⟨h, (C3_sort_stability 0 [] (fun e => (e.total_volume : ℤ)) 0 [] "sports"
    sampleEvent aggregatedSample h).2.2⟩

/-- Four sample events with total volumes 500, 100, 300, 900. -/
def rankSample4 : List EventData :=
  [{ event_ticker := "A", title := "", category := "", options := [],
     total_volume := 500, num_markets := 0, max_price_change := 0, series_ticker := "" },
   { event_ticker := "B", title := "", category := "", options := [],
     total_volume := 100, num_markets := 0, max_price_change := 0, series_ticker := "" },
   { event_ticker := "C", title := "", category := "", options := [],
     total_volume := 300, num_markets := 0, max_price_change := 0, series_ticker := "" },
   { event_ticker := "D", title := "", category := "", options := [],
     total_volume := 900, num_markets := 0, max_price_change := 0, series_ticker := "" }]

/-- C4: ranking by `"volume"` sorts the events descending by total
volume and the `[:top_n]` truncation returns at most `limit` elements
(all of them when fewer exist), a prefix of the sorted permutation; on
four events with volumes `[500, 100, 300, 900]` and limit 3 the result
is ordered `[900, 500, 300]` with length 3. -/
theorem C4_rank_volume (lookup : CandleLookup) (evs : List EventData) (n : ℕ)
    (_hn : 0 < n) :
    rankEvents lookup "volume" evs = sortEventsBy (fun e => (e.total_volume : ℤ)) evs ∧
      ((rankEvents lookup "volume" evs).take n).Pairwise
        (fun a b => b.total_volume ≤ a.total_volume) ∧
      (rankEvents lookup "volume" evs).Perm evs ∧
      ((rankEvents lookup "volume" evs).take n).length = min n evs.length ∧
      ((rankEvents lookup "volume" evs).take n).IsPrefix (rankEvents lookup "volume" evs) ∧
      ((rankEvents (fun _ _ => (none : Option ℤ)) "volume" rankSample4).take 3).map
          (fun e => e.total_volume) = [900, 500, 300] ∧
      ((rankEvents (fun _ _ => (none : Option ℤ)) "volume" rankSample4).take 3).length = 3 := by
  have heq : rankEvents lookup "volume" evs =
      sortEventsBy (fun e => (e.total_volume : ℤ)) evs := by
    rw [rankEvents, if_pos rfl]
  have hperm : (rankEvents lookup "volume" evs).Perm evs := by
    rw [heq, sortEventsBy]
    exact List.perm_insertionSort _ _
  have hsorted : (rankEvents lookup "volume" evs).Pairwise
      (keyGe fun e => (e.total_volume : ℤ)) := by
    rw [heq, sortEventsBy]
    exact List.sorted_insertionSort _ _
  refine ⟨heq, ?_, hperm, ?_, List.take_prefix n _, by decide, by decide⟩
  · have hp : ((rankEvents lookup "volume" evs).take n).Pairwise
        (keyGe fun e => (e.total_volume : ℤ)) :=
      hsorted.sublist (List.take_sublist n _)
    exact hp.imp fun hab => Nat.cast_le.mp hab
  · rw [List.length_take, hperm.length_eq]

/-- Witness for C4 at a concrete input. -/
theorem C4_rank_volume_witness :
    0 < 3 ∧
      ((rankEvents (fun _ _ => (none : Option ℤ)) "volume" rankSample4).take 3).length =
        min 3 rankSample4.length :=
  ⟨by decide,
    (C4_rank_volume (fun _ _ => (none : Option ℤ)) rankSample4 3 (by decide)).2.2.2.1⟩

/-- Sample crypto-flavored financial event. -/
def bitcoinEvent : RawEvent :=
  { event_ticker := "EB", title := "Will Bitcoin hit $100k?", category := "Financials",
    series_ticker := "SB", markets := [] }

/-- Sample non-crypto financial event. -/
def fedEvent : RawEvent :=
  { event_ticker := "EF", title := "Will the Fed cut rates in March?",
    category := "Financials", series_ticker := "SF", markets := [] }

/-- C5: for an event labelled `"Financials"` upstream, the classifier
accepts it for `"crypto"` exactly when its lower-cased title contains a
crypto keyword, and for `"economics"` exactly when it does not; in
particular the Bitcoin title matches crypto but not economics, and the
Fed title matches economics but not crypto. -/
theorem C5_financials_crypto_split (ev : RawEvent) (hcat : ev.category = "Financials") :
    eventMatches "crypto" ev = hasCryptoKeyword (lowerString ev.title) ∧
      eventMatches "economics" ev = !hasCryptoKeyword (lowerString ev.title) ∧
      eventMatches "crypto" bitcoinEvent = true ∧
      eventMatches "economics" bitcoinEvent = false ∧
      eventMatches "economics" fedEvent = true ∧
      eventMatches "crypto" fedEvent = false := by
  have hbase : baseCategoryMatch "crypto" (lowerString "Financials") = true := by decide
  have hbase2 : baseCategoryMatch "economics" (lowerString "Financials") = true := by decide
  refine ⟨?_, ?_, by decide, by decide, by decide, by decide⟩
  · simp only [eventMatches]
    rw [hcat]
    simp [hbase]
  · simp only [eventMatches]
    rw [hcat]
    simp [hbase2]

/-- Witness for C5 at a concrete input. -/
theorem C5_financials_crypto_split_witness :
    bitcoinEvent.category = "Financials" ∧
      eventMatches "crypto" bitcoinEvent = hasCryptoKeyword (lowerString bitcoinEvent.title) :=
  ⟨rfl, (C5_financials_crypto_split bitcoinEvent rfl).1⟩

/-- The option-level price changes of an event, in option order. -/
def optionChanges (e : EventData) : List ℤ :=
  e.options.map fun o => o.price_change_24h

/-- Sample event for the enrichment claims: two options with nonempty
tickers, both with price change 0 as produced by the aggregator. -/
def enrichSampleEvent : EventData :=
  { event_ticker := "E9", title := "T", category := "C",
    options :=
      [{ name := "A", probability := 50, volume_24h := 1, ticker := "TA",
         price_change_24h := 0, series_ticker := "S" },
       { name := "B", probability := 40, volume_24h := 2, ticker := "TB",
         price_change_24h := 0, series_ticker := "S" }],
    total_volume := 3, num_markets := 2, max_price_change := 0,
    series_ticker := "S" }

/-- Sample candle lookup: fails (raises) for every market except `"TB"`,
where it returns a change of 7. -/
def sampleLookup : CandleLookup :=
  fun _ ticker => if ticker = "TB" then some 7 else none

/-- C6: enrichment treats each option independently (a failing lookup
only leaves that option's change at its default 0 and does not disturb
the others), and afterwards the event's `max_price_change` is the
option-level change of largest absolute value, earliest occurrence
winning ties.  The last two conjuncts are the concrete two-option
scenario: lookup fails for option A and returns 7 for option B, so the
changes become `[0, 7]` and the event's max change is 7. -/
theorem C6_enrichment_resilience (lookup : CandleLookup) (e : EventData)
    (h0 : ∀ o ∈ e.options, o.price_change_24h = 0) (hne : e.options ≠ []) :
    (enrichEvent lookup e).options = e.options.map (enrichOption lookup) ∧
      (∀ o ∈ e.options, effChange lookup o = none →
        (enrichOption lookup o).price_change_24h = 0) ∧
      (∀ o ∈ e.options, ∀ c : ℤ, effChange lookup o = some c →
        (enrichOption lookup o).price_change_24h = c) ∧
      (∃ i, ∃ hi : i < (optionChanges (enrichEvent lookup e)).length,
        (enrichEvent lookup e).max_price_change =
            (optionChanges (enrichEvent lookup e))[i] ∧
          (∀ j, ∀ hj : j < (optionChanges (enrichEvent lookup e)).length,
            |(optionChanges (enrichEvent lookup e))[j]| ≤
              |(optionChanges (enrichEvent lookup e))[i]|) ∧
          ∀ j, ∀ hj : j < (optionChanges (enrichEvent lookup e)).length,
            j < i → |(optionChanges (enrichEvent lookup e))[j]| <
              |(optionChanges (enrichEvent lookup e))[i]|) ∧
      optionChanges (enrichEvent sampleLookup enrichSampleEvent) = [0, 7] ∧
      (enrichEvent sampleLookup enrichSampleEvent).max_price_change = 7 := by
  have hopts := enrichEvent_options lookup e
  refine ⟨hopts, ?_, ?_, ?_, by decide, by decide⟩
  · intro o ho hN
    rw [enrichOption_price, hN]
    simpa using h0 o ho
  · intro o ho c hS
    rw [enrichOption_price, hS]
    rfl
  · have hcs2 : optionChanges (enrichEvent lookup e) =
        e.options.map fun o => (effChange lookup o).getD 0 := by
      rw [optionChanges, hopts, List.map_map]
      refine List.map_congr_left ?_
      intro o ho
      show (enrichOption lookup o).price_change_24h = (effChange lookup o).getD 0
      rw [enrichOption_price, h0 o ho]
    have hfold : (enrichEvent lookup e).max_price_change =
        (optionChanges (enrichEvent lookup e)).foldl maxChangeStep 0 := by
      rw [enrichEvent_max, hcs2, foldl_maxChangeStep_map_getD]
    have hlen : 0 < (optionChanges (enrichEvent lookup e)).length := by
      rw [hcs2, List.length_map]
      exact List.length_pos.mpr hne
    rcases foldl_maxChangeStep_spec (optionChanges (enrichEvent lookup e)) 0 with
      ⟨heq, hall⟩ | ⟨i, hi, heq, hgt, hmax2, hfirst⟩
    · have hz : (optionChanges (enrichEvent lookup e))[0] = 0 := by
        have h1 := hall _ ((optionChanges (enrichEvent lookup e)).getElem_mem hlen)
        have h2 : |(optionChanges (enrichEvent lookup e))[0]| = 0 :=
          le_antisymm (by simpa using h1) (abs_nonneg _)
        exact abs_eq_zero.mp h2
      refine ⟨0, hlen, ?_, ?_, ?_⟩
      · rw [hfold, heq, hz]
      · intro j hj
        have hj2 := hall _ ((optionChanges (enrichEvent lookup e)).getElem_mem hj)
        rw [hz]
        simpa using hj2
      · intro j hj hj0
        omega
    · exact ⟨i, hi, by rw [hfold]; exact heq, hmax2, hfirst⟩

/-- Witness for C6 at a concrete input. -/
theorem C6_enrichment_resilience_witness :
    (∀ o ∈ enrichSampleEvent.options, o.price_change_24h = 0) ∧
      enrichSampleEvent.options ≠ [] ∧
      (enrichEvent sampleLookup enrichSampleEvent).options =
        enrichSampleEvent.options.map (enrichOption sampleLookup) := by
  have h0 : ∀ o ∈ enrichSampleEvent.options, o.price_change_24h = 0 := by decide
  have hne : enrichSampleEvent.options ≠ [] := by decide
  exact ⟨h0, hne, (C6_enrichment_resilience sampleLookup enrichSampleEvent h0 hne).1⟩

/-- A candle whose `previous` reference is present but zero. -/
def zeroPrevCandle : Candle :=
  { open_price := some 2, close_price := some 5, previous_price := some 0 }

/-- C7 counterexample: in the most recent candle a `previous` reference
is present with value 0; the claim's formula gives `close - previous = 5`
but the code's truthiness test skips the zero `previous` and returns
`close - open = 3`. -/
theorem C7_counterexample :
    zeroPrevCandle.previous_price.isSome = true ∧
      get_price_change_24h [zeroPrevCandle] = 3 ∧
      orZero zeroPrevCandle.close_price - orZero zeroPrevCandle.previous_price = 5 := by
  refine ⟨rfl, by decide, by decide⟩

/-- C7 as amended: the change is `close - previous` when the most recent
candle carries a nonzero `previous` reference, else `close - open` when
it carries a nonzero `open`, else 0; an empty candlestick list gives 0.
Absent and zero references coincide because the code reads each field
with `price.get(key, 0) or 0` and then tests truthiness. -/
theorem C7_price_change_formula (candlesticks : List Candle) (c : Candle)
    (hl : candlesticks.getLast? = some c) :
    (orZero c.previous_price ≠ 0 →
        get_price_change_24h candlesticks =
          orZero c.close_price - orZero c.previous_price) ∧
      (orZero c.previous_price = 0 → orZero c.open_price ≠ 0 →
        get_price_change_24h candlesticks =
          orZero c.close_price - orZero c.open_price) ∧
      (orZero c.previous_price = 0 → orZero c.open_price = 0 →
        get_price_change_24h candlesticks = 0) ∧
      get_price_change_24h [] = 0 := by
  have hred : get_price_change_24h candlesticks =
      (if orZero c.previous_price ≠ 0 then
        orZero c.close_price - orZero c.previous_price
       else if orZero c.open_price ≠ 0 then
        orZero c.close_price - orZero c.open_price
       else 0) := by
    rw [get_price_change_24h, hl]
  refine ⟨?_, ?_, ?_, rfl⟩
  · intro h
    rw [hred, if_pos h]
  · intro h1 h2
    rw [hred, if_neg (not_ne_iff.mpr h1), if_pos h2]
  · intro h1 h2
    rw [hred, if_neg (not_ne_iff.mpr h1), if_neg (not_ne_iff.mpr h2)]

/-- Witness for the amended C7 at a concrete input. -/
theorem C7_price_change_formula_witness :
    get_price_change_24h
        [{ open_price := some 2, close_price := some 5, previous_price := some 3 }] =
      orZero (some 5) - orZero (some 3) :=
  (C7_price_change_formula
    [{ open_price := some 2, close_price := some 5, previous_price := some 3 }]
    { open_price := some 2, close_price := some 5, previous_price := some 3 }
    (by decide)).1 (by decide)

/-- C9 counterexample: ranking with sort key `"price_change"` does
mutate the data: on a one-event list whose option changes are all 0, it
performs the candle lookups, rewrites the option-level changes from
`[0, 0]` to `[0, 7]`, and rewrites the event's `max_price_change` from 0
to 7 — so it does not leave those fields unchanged. -/
theorem C9_counterexample :
    (rankEvents sampleLookup "price_change" [enrichSampleEvent]).map
        (fun e => e.options.map fun o => o.price_change_24h) = [[0, 7]] ∧
      [enrichSampleEvent].map
        (fun e => e.options.map fun o => o.price_change_24h) = [[0, 0]] ∧
      (rankEvents sampleLookup "price_change" [enrichSampleEvent]).map
        (fun e => e.max_price_change) = [7] ∧
      [enrichSampleEvent].map (fun e => e.max_price_change) = [0] := by
  exact ⟨by decide, by decide, by decide, by decide⟩

/-- C9 as amended: the `"price_change"` branch of the ranking step first
runs the per-option enrichment itself (one candle lookup per option,
populating the price-change and max-change fields) and then orders the
enriched events descending by absolute `max_price_change`. -/
theorem C9_price_change_ranks_after_enriching (lookup : CandleLookup)
    (evs : List EventData) :
    rankEvents lookup "price_change" evs =
        sortEventsBy (fun e => |e.max_price_change|) (evs.map (enrichEvent lookup)) ∧
      (rankEvents lookup "price_change" evs).Perm (evs.map (enrichEvent lookup)) ∧
      (rankEvents lookup "price_change" evs).Pairwise
        (fun a b => |b.max_price_change| ≤ |a.max_price_change|) := by
  have heq : rankEvents lookup "price_change" evs =
      sortEventsBy (fun e => |e.max_price_change|) (evs.map (enrichEvent lookup)) := by
    rw [rankEvents, if_neg (by decide), if_neg (by decide), if_pos rfl]
  refine ⟨heq, ?_, ?_⟩
  · rw [heq, sortEventsBy]
    exact List.perm_insertionSort _ _
  · have hs : (sortEventsBy (fun e => |e.max_price_change|)
        (evs.map (enrichEvent lookup))).Pairwise (keyGe fun e => |e.max_price_change|) := by
      rw [sortEventsBy]
      exact List.sorted_insertionSort _ _
    rw [heq]
    exact hs.imp fun hab => hab

/-- C10: an event whose upstream category field is missing or empty
passes the base category match for every requested category (the empty
lower-cased label is a substring of every target), so classification
reduces to the crypto/economics keyword refinements alone, and with at
least one active market the event reaches the aggregation output. -/
theorem C10_empty_category_matches_all (category : String) (ev : RawEvent)
    (hcat : ev.category = "") :
    baseCategoryMatch (lowerString category) (lowerString ev.category) = true ∧
      eventMatches (lowerString category) ev =
        (if lowerString category = "crypto" then
          hasCryptoKeyword (lowerString ev.title)
         else if lowerString category = "economics" then
          !hasCryptoKeyword (lowerString ev.title)
         else true) ∧
      (eventMatches (lowerString category) ev = true →
        activeMarkets ev ≠ [] → aggregate category [ev] ≠ []) := by
  have hbase : baseCategoryMatch (lowerString category) (lowerString ev.category) = true := by
    rw [hcat]
    exact baseCategoryMatch_empty _
  refine ⟨hbase, ?_, ?_⟩
  · simp only [eventMatches]
    rw [hbase]
    by_cases h1 : lowerString category = "crypto"
    · rw [if_pos h1, if_pos h1, Bool.true_and]
    · rw [if_neg h1, if_neg h1]
      by_cases h2 : lowerString category = "economics"
      · rw [if_pos h2, if_pos h2, Bool.true_and]
      · rw [if_neg h2, if_neg h2]
  · intro hm hact
    rcases hsome : aggregateEvent (lowerString category) ev with _ | e'
    · rw [aggregateEvent, if_pos hm, if_neg hact] at hsome
      exact absurd hsome (by simp)
    · rw [aggregate]
      simp [List.filterMap_cons, hsome]

/-- Sample event with an empty upstream category and one active market. -/
def uncategorizedEvent : RawEvent :=
  { event_ticker := "EU", title := "Mystery question", category := "",
    series_ticker := "SU",
    markets := [{ ticker := "TU", status := some "active", yes_bid_dollars := none,
                  yes_sub_title := some "Yes", volume_24h := some 1 }] }

/-- Witness for C10 at a concrete input. -/
theorem C10_empty_category_matches_all_witness :
    uncategorizedEvent.category = "" ∧
      baseCategoryMatch (lowerString "world") (lowerString uncategorizedEvent.category) = true :=
  ⟨rfl, (C10_empty_category_matches_all "world" uncategorizedEvent rfl).1⟩
